import Mathlib

/-!
Verification of the PodPico transfer core (src/src-tauri/src): a shallow
embedding of the download engine (`file_manager.rs`), the device transfer
engine (`usb_manager.rs`) and the sync command (`commands.rs`), together
with theorems settling the specification claims.

The filesystem is modelled as an association list from paths (segment
lists) to byte contents; wall-clock readings are supplied by the
environment as a function from loop index to elapsed time; `f64`
arithmetic on progress percentages and speeds is modelled over `ℚ`.
-/

namespace PodPico

/-- The error variants of `PodPicoError` (src/src-tauri/src/error.rs) that the
download and transfer engines produce. -/
inductive PodPicoError where
  | NetworkError (msg : String)
  | IoError (msg : String)
  | UsbDeviceNotFound (path : String)
  | FileTransferFailed (msg : String)
deriving DecidableEq, Repr

/-- The `Display`/`to_string` rendering of the modelled error variants, from the
`#[error(...)]` attributes in error.rs. -/
def PodPicoError.toMessage : PodPicoError → String
  | .NetworkError m => "Network error: " ++ m
  | .IoError m => "IO error: " ++ m
  | .UsbDeviceNotFound p => "USB device not found: " ++ p
  | .FileTransferFailed m => "File transfer failed: " ++ m

/-- A filesystem path, as a list of segments. -/
abbrev FilePath' := List String

/-- The filesystem: an association list from paths to file contents (bytes as
naturals).  Directories are not tracked; `create_dir_all` is a no-op here. -/
abbrev FS := List (FilePath' × List Nat)

def fsExists (fs : FS) (p : FilePath') : Bool :=
  fs.any (fun e => decide (e.1 = p))

def fsRead (fs : FS) (p : FilePath') : Option (List Nat) :=
  (fs.find? (fun e => decide (e.1 = p))).map (·.2)

def fsWrite (fs : FS) (p : FilePath') (bs : List Nat) : FS :=
  (p, bs) :: fs.filter (fun e => !decide (e.1 = p))

def fsRemove (fs : FS) (p : FilePath') : FS :=
  fs.filter (fun e => !decide (e.1 = p))

/-- `PathBuf::to_string_lossy` on a segment path. -/
def pathToString (p : FilePath') : String :=
  String.intercalate "/" p

/-- Whether the first path is a leading segment sequence of the second. -/
def dirLeads : FilePath' → FilePath' → Bool
  | [], _ => true
  | _ :: _, [] => false
  | a :: as, b :: bs => a == b && dirLeads as bs

/-- A directory exists in this filesystem model when some file lives under it
(the model has no empty directories). -/
def fsDirExists (fs : FS) (dir : FilePath') : Bool :=
  fs.any (fun e => dirLeads dir e.1)

/-- Rust `str::split('/')` on a character list: splits into groups separated by
`c`, always producing at least one (possibly empty) group. -/
def splitOnChar (c : Char) : List Char → List (List Char)
  | [] => [[]]
  | a :: rest =>
    match splitOnChar c rest with
    | [] => [[]]
    | g :: gs => if a = c then [] :: g :: gs else (a :: g) :: gs

/-- `FileManager::extract_filename_from_url` (file_manager.rs:341-351): the last
`/`-separated segment of the URL when it contains a `.` and its length is below
255, else `<episode_id>.mp3`. -/
def extractFilenameFromUrl (url : List Char) (episodeId : Int) : List Char :=
  match (splitOnChar '/' url).getLast? with
  | some filename =>
    if filename.contains '.' ∧ filename.length < 255 then filename
    else (toString episodeId).toList ++ (".mp3").toList
  | none => (toString episodeId).toList ++ (".mp3").toList

instance {ε α : Type} [DecidableEq ε] [DecidableEq α] : DecidableEq (Except ε α) :=
  fun a b =>
  match a, b with
  | .ok x, .ok y =>
    if h : x = y then .isTrue (congrArg Except.ok h)
    else .isFalse (fun hh => h (Except.ok.inj hh))
  | .error x, .error y =>
    if h : x = y then .isTrue (congrArg Except.error h)
    else .isFalse (fun hh => h (Except.error.inj hh))
  | .ok _, .error _ => .isFalse (fun hh => Except.noConfusion hh)
  | .error _, .ok _ => .isFalse (fun hh => Except.noConfusion hh)

/-- `DownloadStatus` (file_manager.rs:24-31). -/
inductive DownloadStatus where
  | Pending
  | InProgress
  | Completed
  | Failed (reason : String)
  | Cancelled
deriving DecidableEq, Repr

/-- `DownloadProgress` (file_manager.rs:13-22); `f64` fields over `ℚ`. -/
structure DownloadProgress where
  episode_id : Int
  total_bytes : Nat
  downloaded_bytes : Nat
  percentage : ℚ
  speed_bytes_per_sec : ℚ
  eta_seconds : Option Nat
  status : DownloadStatus
deriving DecidableEq, Repr

/-- `FileManager::update_download_status` (file_manager.rs:243-267) applied to
the current table entry: sets status and counters, and refreshes the ETA only
when the percentage is strictly between 0 and 100 and the (unchanged) speed is
positive. -/
def updateDownloadStatus (prev : DownloadProgress) (status : DownloadStatus)
    (percentage : ℚ) (downloaded total : Nat) : DownloadProgress :=
  let p := { prev with status := status, percentage := percentage,
                       downloaded_bytes := downloaded, total_bytes := total }
  if 0 < percentage ∧ percentage < 100 ∧ 0 < p.speed_bytes_per_sec then
    { p with eta_seconds := some (Int.toNat (Int.floor (((total - downloaded : Nat) : ℚ) / p.speed_bytes_per_sec))) }
  else p

/-- `FileManager::update_download_status_with_speed` (file_manager.rs:269-313)
applied to the current table entry (the insert-if-absent branch is not needed
inside a single operation, where the entry always exists). -/
def updateDownloadStatusWithSpeed (prev : DownloadProgress) (status : DownloadStatus)
    (percentage : ℚ) (downloaded total : Nat) (speed : ℚ) : DownloadProgress :=
  let p := { prev with status := status, percentage := percentage,
                       downloaded_bytes := downloaded, total_bytes := total,
                       speed_bytes_per_sec := speed }
  if 0 < percentage ∧ percentage < 100 ∧ 0 < speed then
    { p with eta_seconds := some (Int.toNat (Int.floor (((total - downloaded : Nat) : ℚ) / speed))) }
  else p

/-- An HTTP response as the download engine observes it: success flag of the
status code, the declared `Content-Length`, and the body as a chunk stream in
which `none` is a mid-stream error. -/
structure HttpResp where
  statusOk : Bool
  contentLength : Option Nat
  chunks : List (Option (List Nat))

/-- The environment of one `download_episode` call: whether `create_dir_all`
can create the podcast directory when it does not exist yet (creating an
already-existing directory always succeeds), the outcome of the
`check_disk_space` writability probe, the outcome of `File::create`, the
network's answer to the GET (`none` is a connection failure), and the wall
clock read after each chunk. -/
structure DlWorld where
  podcastDirCreateOk : Bool
  dirWritable : Bool
  fileCreateOk : Bool
  response : Option HttpResp
  elapsedSecs : Nat → ℚ

/-- State threaded through the chunk loop of `download_with_progress`. -/
structure DlLoopState where
  fileBytes : List Nat
  downloaded : Nat
  idx : Nat
  prog : DownloadProgress
  trace : List DownloadProgress

/-- The chunk loop of `FileManager::download_with_progress`
(file_manager.rs:200-234): append each chunk to the file, accumulate the byte
count, and record an `InProgress` progress entry after every chunk; a stream
error aborts with a `NetworkError`. -/
def dlChunks (elapsedSecs : Nat → ℚ) (total : Nat) :
    List (Option (List Nat)) → DlLoopState → Except PodPicoError Unit × DlLoopState
  | [], st => (.ok (), st)
  | none :: _, st => (.error (.NetworkError "Download stream error"), st)
  | some bytes :: rest, st =>
    let downloaded := st.downloaded + bytes.length
    let percentage : ℚ := if 0 < total then (downloaded : ℚ) / (total : ℚ) * 100 else 0
    let elapsed := elapsedSecs st.idx
    let speed : ℚ := if 0 < elapsed then (downloaded : ℚ) / elapsed else 0
    let prog := updateDownloadStatusWithSpeed st.prog .InProgress percentage downloaded total speed
    dlChunks elapsedSecs total rest
      { fileBytes := st.fileBytes ++ bytes, downloaded := downloaded, idx := st.idx + 1,
        prog := prog, trace := st.trace ++ [prog] }

/-- `FileManager::download_with_progress` (file_manager.rs:162-241): mark the
entry `InProgress`, send the GET, check the status, create the destination file
(truncating) and stream the body.  Returns the result, the filesystem, the
final value of the table entry and the entry values written. -/
def downloadWithProgress (w : DlWorld) (fs : FS) (filePath : FilePath')
    (prog0 : DownloadProgress) :
    Except PodPicoError String × FS × DownloadProgress × List DownloadProgress :=
  let prog1 := updateDownloadStatus prog0 .InProgress 0 0 0
  match w.response with
  | none => (.error (.NetworkError "Failed to start download"), fs, prog1, [prog1])
  | some resp =>
    if !resp.statusOk then
      (.error (.NetworkError "HTTP error"), fs, prog1, [prog1])
    else
      let total := resp.contentLength.getD 0
      if !w.fileCreateOk then
        (.error (.IoError "Failed to create file"), fs, prog1, [prog1])
      else
        let (r, st) := dlChunks w.elapsedSecs total resp.chunks
          { fileBytes := [], downloaded := 0, idx := 0, prog := prog1, trace := [] }
        let fs' := fsWrite fs filePath st.fileBytes
        match r with
        | .error e => (.error e, fs', st.prog, prog1 :: st.trace)
        | .ok _ => (.ok (pathToString filePath), fs', st.prog, prog1 :: st.trace)

/-- The per-podcast directory `<download_root>/<podcast_id>` that
`download_episode` creates with `create_dir_all` (file_manager.rs:74-75). -/
def downloadPodcastDir (root : FilePath') (podcastId : Int) : FilePath' :=
  root ++ [toString podcastId]

/-- The destination path `<download_root>/<podcast_id>/<derived_filename>`
constructed by `download_episode`. -/
def downloadDestPath (root : FilePath') (url : String) (episodeId podcastId : Int) :
    FilePath' :=
  downloadPodcastDir root podcastId ++
    [String.mk (extractFilenameFromUrl url.toList episodeId)]

/-- Outcome of one `download_episode` call: the returned result, the resulting
filesystem, the sequence of values written to this episode's progress-table
entry, and how many HTTP requests were issued. -/
structure DlResult where
  result : Except PodPicoError String
  fs : FS
  trace : List DownloadProgress
  networkRequests : Nat
deriving DecidableEq, Repr

/-- `FileManager::download_episode` (file_manager.rs:61-160): create the
podcast directory (`create_dir_all`, whose failure propagates via `?` before
any progress entry is inserted; creating an already-existing directory
succeeds), short-circuit when the destination exists, else insert a `Pending`
entry, run the `check_disk_space` writability probe (whose failure propagates
via `?` without touching the entry), stream the download, and finish the entry
with `Completed`/100%/0/0 or `Failed(reason)`/0%/0/0. -/
def downloadEpisode (w : DlWorld) (fs : FS) (root : FilePath') (episodeUrl : String)
    (episodeId podcastId : Int) : DlResult :=
  if !(fsDirExists fs (downloadPodcastDir root podcastId) || w.podcastDirCreateOk) then
    { result := .error (.IoError "Failed to create podcast directory"), fs := fs,
      trace := [], networkRequests := 0 }
  else
  let filePath := downloadDestPath root episodeUrl episodeId podcastId
  if fsExists fs filePath then
    { result := .ok (pathToString filePath), fs := fs,
      trace := [⟨episodeId, 0, 0, 100, 0, none, .Completed⟩], networkRequests := 0 }
  else
    let prog0 : DownloadProgress := ⟨episodeId, 0, 0, 0, 0, none, .Pending⟩
    if !w.dirWritable then
      { result := .error (.IoError "Insufficient disk space or permissions"), fs := fs,
        trace := [prog0], networkRequests := 0 }
    else
      let (r, fs', progLast, tr) := downloadWithProgress w fs filePath prog0
      match r with
      | .ok path =>
        let progF := updateDownloadStatusWithSpeed progLast .Completed 100 0 0 0
        { result := .ok path, fs := fs', trace := prog0 :: tr ++ [progF],
          networkRequests := 1 }
      | .error e =>
        let progF := updateDownloadStatusWithSpeed progLast (.Failed e.toMessage) 0 0 0 0
        { result := .error e, fs := fs', trace := prog0 :: tr ++ [progF],
          networkRequests := 1 }

/-- `TransferStatus` (usb_manager.rs:26-33). -/
inductive TransferStatus where
  | Pending
  | InProgress
  | Completed
  | Failed (reason : String)
  | Cancelled
deriving DecidableEq, Repr

/-- `TransferProgress` (usb_manager.rs:14-24); `f64` fields over `ℚ`. -/
structure TransferProgress where
  episode_id : Int
  device_id : String
  total_bytes : Nat
  transferred_bytes : Nat
  percentage : ℚ
  speed_bytes_per_sec : ℚ
  eta_seconds : Option Nat
  status : TransferStatus
deriving DecidableEq, Repr

/-- `UsbDevice` (commands.rs:44-51). -/
structure UsbDevice where
  id : String
  name : String
  path : String
  total_space : Nat
  available_space : Nat
  is_connected : Bool
deriving DecidableEq, Repr

/-- `UsbManager::update_transfer_status` (usb_manager.rs:360-365): only the
status field changes. -/
def updateTransferStatus (prev : TransferProgress) (status : TransferStatus) :
    TransferProgress :=
  { prev with status := status }

/-- `UsbManager::update_transfer_progress` (usb_manager.rs:368-388). -/
def updateTransferProgress (prev : TransferProgress) (total transferred : Nat)
    (status : TransferStatus) : TransferProgress :=
  let percentage : ℚ := if 0 < total then (transferred : ℚ) / (total : ℚ) * 100 else 0
  { prev with total_bytes := total, transferred_bytes := transferred,
              percentage := percentage, status := status }

/-- `UsbManager::update_transfer_progress_detailed` (usb_manager.rs:391-415). -/
def updateTransferProgressDetailed (prev : TransferProgress) (total transferred : Nat)
    (speed : ℚ) (eta : Option Nat) (status : TransferStatus) : TransferProgress :=
  let percentage : ℚ := if 0 < total then (transferred : ℚ) / (total : ℚ) * 100 else 0
  { prev with total_bytes := total, transferred_bytes := transferred,
              percentage := percentage, speed_bytes_per_sec := speed,
              eta_seconds := eta, status := status }

/-- The 64 KiB copy buffer of `transfer_with_progress` (usb_manager.rs:303). -/
def bufferSize : Nat := 64 * 1024

/-- The environment of one `transfer_file` call: whether `fs::metadata` on the
source succeeds, whether the device mount path exists, the answer of
`get_device_info` (`none` when the path is not a recognized mounted disk),
whether `create_dir_all` on the device succeeds, and the wall clock (whole
seconds, as `elapsed.as_secs()`) read after each buffer. -/
structure UsbWorld where
  metadataOk : Bool
  devExists : Bool
  deviceInfo : Option UsbDevice
  dirCreateOk : Bool
  elapsedSecs : Nat → Nat

/-- State threaded through the copy loop of `transfer_with_progress`. -/
structure UsbLoopState where
  destBytes : List Nat
  transferred : Nat
  idx : Nat
  prog : TransferProgress
  trace : List TransferProgress

/-- The copy loop of `UsbManager::transfer_with_progress`
(usb_manager.rs:307-348): while fewer than `total` bytes are moved, read up to
64 KiB from the source, append it to the destination, and record an
`InProgress` entry with speed and ETA.  The loop runs at most one iteration
per byte, so any `fuel` larger than `total` makes this equal to the unbounded
Rust loop. -/
def transferLoop (elapsedSecs : Nat → Nat) (src : List Nat) (total : Nat) :
    Nat → UsbLoopState → UsbLoopState
  | 0, st => st
  | fuel + 1, st =>
    if st.transferred < total then
      let chunk := (src.drop st.transferred).take bufferSize
      if chunk = [] then st
      else
        let transferred := st.transferred + chunk.length
        let elapsed := elapsedSecs st.idx
        let speed : ℚ := if 0 < elapsed then (transferred : ℚ) / (elapsed : ℚ) else 0
        let eta : Option Nat :=
          if 0 < speed then
            some (Int.toNat (Int.floor (((total - transferred : Nat) : ℚ) / speed)))
          else none
        let prog := updateTransferProgressDetailed st.prog total transferred speed eta
          .InProgress
        transferLoop elapsedSecs src total fuel
          { destBytes := st.destBytes ++ chunk, transferred := transferred,
            idx := st.idx + 1, prog := prog, trace := st.trace ++ [prog] }
    else st

/-- The insufficient-space message format of usb_manager.rs:236-239. -/
def insufficientSpaceMsg (needed available : Nat) : String :=
  "Insufficient space on USB device. Need " ++ toString needed ++
    " bytes, available " ++ toString available ++ " bytes"

/-- Outcome of one `transfer_file` call: the returned result, the resulting
filesystem, and the sequence of values written to this transfer's
progress-table entry. -/
structure TransferResult where
  result : Except PodPicoError Unit
  fs : FS
  trace : List TransferProgress
deriving DecidableEq, Repr

/-- The destination path `<device_path>/PodPico/<filename>` used by
`transfer_file` (usb_manager.rs:250-255). -/
def transferDestPath (devicePath : FilePath') (filename : String) : FilePath' :=
  devicePath ++ ["PodPico", filename]

/-- `UsbManager::transfer_file` (usb_manager.rs:172-285): insert a `Pending`
entry, check source and device existence (each failure marks `Failed`), read
the source size (a metadata failure propagates via `?` without touching the
entry), run the space pre-flight only when `get_device_info` succeeds, create
the `PodPico` directory (a failure propagates via `?` without touching the
entry), then copy with progress and finish with `Completed` or
`Failed(reason)`. -/
def transferFile (w : UsbWorld) (fs : FS) (sourcePath devicePath : FilePath')
    (filename : String) : TransferResult :=
  let prog0 : TransferProgress :=
    ⟨0, pathToString devicePath, 0, 0, 0, 0, none, .Pending⟩
  match fsRead fs sourcePath with
  | none =>
    let msg := "Source file not found: " ++ pathToString sourcePath
    ⟨.error (.FileTransferFailed msg), fs, [prog0, updateTransferStatus prog0 (.Failed msg)]⟩
  | some src =>
    if !w.devExists then
      let msg := "USB device not found: " ++ pathToString devicePath
      ⟨.error (.UsbDeviceNotFound (pathToString devicePath)), fs,
        [prog0, updateTransferStatus prog0 (.Failed msg)]⟩
    else if !w.metadataOk then
      ⟨.error (.FileTransferFailed "Cannot read source file"), fs, [prog0]⟩
    else
      let fileSize := src.length
      let spaceError : Option String :=
        match w.deviceInfo with
        | some info =>
          if info.available_space < fileSize then
            some (insufficientSpaceMsg fileSize info.available_space)
          else none
        | none => none
      match spaceError with
      | some msg =>
        ⟨.error (.FileTransferFailed msg), fs,
          [prog0, updateTransferStatus prog0 (.Failed msg)]⟩
      | none =>
        if !w.dirCreateOk then
          ⟨.error (.FileTransferFailed "Cannot create directory on USB"), fs, [prog0]⟩
        else
          let destPath := transferDestPath devicePath filename
          let prog1 := updateTransferProgress prog0 fileSize 0 .InProgress
          let st := transferLoop w.elapsedSecs src fileSize (fileSize + 1)
            { destBytes := [], transferred := 0, idx := 0, prog := prog1, trace := [] }
          let fs' := fsWrite fs destPath st.destBytes
          ⟨.ok (), fs', prog0 :: prog1 :: st.trace ++ [updateTransferStatus st.prog .Completed]⟩

/-- The progress table of `FileManager` (`downloads`): episode id to entry. -/
abbrev Downloads := List (Int × DownloadProgress)

/-- `FileManager::get_episode_path` (file_manager.rs:353-357). -/
def getEpisodePath (root : FilePath') (podcastId episodeId : Int) : FilePath' :=
  root ++ [toString podcastId, toString episodeId ++ ".mp3"]

/-- `FileManager::delete_episode` (file_manager.rs:359-376): when the local
file exists, remove it — a `fs::remove_file` failure propagates via `?` before
the table is touched — then drop the episode's entry from the download table.
`removeOk` is the outcome of `fs::remove_file` when it is attempted. -/
def deleteEpisode (removeOk : Bool) (fs : FS) (downloads : Downloads)
    (root : FilePath') (podcastId episodeId : Int) :
    Except PodPicoError Unit × FS × Downloads :=
  let p := getEpisodePath root podcastId episodeId
  if fsExists fs p then
    if removeOk then
      (.ok (), fsRemove fs p, downloads.filter (fun e => !decide (e.1 = episodeId)))
    else
      (.error (.IoError "Failed to remove episode file"), fs, downloads)
  else
    (.ok (), fs, downloads.filter (fun e => !decide (e.1 = episodeId)))

/-- A database episode row, restricted to the fields the sync claims mention
(commands.rs:27-42). -/
structure Episode where
  id : Int
  local_file_path : Option String
  on_device : Bool
deriving DecidableEq, Repr

/-- `DeviceSyncReport` (commands.rs:65-70). -/
structure DeviceSyncReport where
  processed_files : Nat
  updated_episodes : Nat
  sync_duration_ms : Nat
  is_consistent : Bool
deriving DecidableEq, Repr

/-- Modelled from the spec: `UsbManager::sync_device_episode_status` is called
from `sync_episode_device_status` (commands.rs:602) but its definition is not
under src/.  Per spec §4.4, sync reads the device's file listing and the
expected filename set and reports the number of files found and whether every
expected file was present on the device. -/
structure SyncStatusResult where
  files_found : Nat
  is_consistent : Bool
deriving DecidableEq, Repr

/-- Modelled from the spec: the comparison performed by the missing
`UsbManager::sync_device_episode_status`, with the device scan result and the
expected filename set as inputs. -/
def sync_device_episode_status (deviceFiles expected : List String) : SyncStatusResult :=
  ⟨deviceFiles.length, expected.all (fun f => deviceFiles.contains f)⟩

/-- The command `sync_episode_device_status` (commands.rs:592-614): runs the
device comparison, and builds the report with `processed_files` from the scan,
`is_consistent` from the comparison, and `updated_episodes` hard-coded to `0`
("Will be enhanced with database integration"); the database episodes are not
touched, so they are returned unchanged. -/
def syncEpisodeDeviceStatusCmd (deviceFiles expected : List String)
    (episodes : List Episode) (durationMs : Nat) : DeviceSyncReport × List Episode :=
  let r := sync_device_episode_status deviceFiles expected
  (⟨r.files_found, 0, durationMs, r.is_consistent⟩, episodes)

/-! ### Helper lemmas -/

lemma getLast?_mem {α : Type} {l : List α} {a : α} (h : l.getLast? = some a) : a ∈ l := by
  obtain ⟨hne, rfl⟩ := List.mem_getLast?_eq_getLast (l := l) (x := a) (by rw [h]; rfl)
  exact List.getLast_mem hne

@[simp] lemma updateDownloadStatus_episode_id (p s pct d t) :
    (updateDownloadStatus p s pct d t).episode_id = p.episode_id := by
  unfold updateDownloadStatus; dsimp only; split <;> rfl

@[simp] lemma updateDownloadStatus_status (p s pct d t) :
    (updateDownloadStatus p s pct d t).status = s := by
  unfold updateDownloadStatus; dsimp only; split <;> rfl

@[simp] lemma updateDownloadStatus_percentage (p s pct d t) :
    (updateDownloadStatus p s pct d t).percentage = pct := by
  unfold updateDownloadStatus; dsimp only; split <;> rfl

@[simp] lemma updateDownloadStatus_downloaded (p s pct d t) :
    (updateDownloadStatus p s pct d t).downloaded_bytes = d := by
  unfold updateDownloadStatus; dsimp only; split <;> rfl

@[simp] lemma updateDownloadStatus_total (p s pct d t) :
    (updateDownloadStatus p s pct d t).total_bytes = t := by
  unfold updateDownloadStatus; dsimp only; split <;> rfl

@[simp] lemma updateDownloadStatusWithSpeed_status (p s pct d t sp) :
    (updateDownloadStatusWithSpeed p s pct d t sp).status = s := by
  unfold updateDownloadStatusWithSpeed; dsimp only; split <;> rfl

@[simp] lemma updateDownloadStatusWithSpeed_percentage (p s pct d t sp) :
    (updateDownloadStatusWithSpeed p s pct d t sp).percentage = pct := by
  unfold updateDownloadStatusWithSpeed; dsimp only; split <;> rfl

@[simp] lemma updateDownloadStatusWithSpeed_downloaded (p s pct d t sp) :
    (updateDownloadStatusWithSpeed p s pct d t sp).downloaded_bytes = d := by
  unfold updateDownloadStatusWithSpeed; dsimp only; split <;> rfl

@[simp] lemma updateDownloadStatusWithSpeed_total (p s pct d t sp) :
    (updateDownloadStatusWithSpeed p s pct d t sp).total_bytes = t := by
  unfold updateDownloadStatusWithSpeed; dsimp only; split <;> rfl

@[simp] lemma updateTransferStatus_status (p s) :
    (updateTransferStatus p s).status = s := rfl

@[simp] lemma updateTransferStatus_transferred (p s) :
    (updateTransferStatus p s).transferred_bytes = p.transferred_bytes := rfl

@[simp] lemma updateTransferStatus_percentage (p s) :
    (updateTransferStatus p s).percentage = p.percentage := rfl

@[simp] lemma updateTransferProgress_status (p t tr s) :
    (updateTransferProgress p t tr s).status = s := rfl

@[simp] lemma updateTransferProgress_transferred (p t tr s) :
    (updateTransferProgress p t tr s).transferred_bytes = tr := rfl

@[simp] lemma updateTransferProgress_percentage (p t tr s) :
    (updateTransferProgress p t tr s).percentage =
      if 0 < t then (tr : ℚ) / (t : ℚ) * 100 else 0 := rfl

@[simp] lemma updateTransferProgressDetailed_status (p t tr sp eta s) :
    (updateTransferProgressDetailed p t tr sp eta s).status = s := rfl

@[simp] lemma updateTransferProgressDetailed_transferred (p t tr sp eta s) :
    (updateTransferProgressDetailed p t tr sp eta s).transferred_bytes = tr := rfl

@[simp] lemma updateTransferProgressDetailed_percentage (p t tr sp eta s) :
    (updateTransferProgressDetailed p t tr sp eta s).percentage =
      if 0 < t then (tr : ℚ) / (t : ℚ) * 100 else 0 := rfl

/-! ### Lemmas on URL splitting, for the filename-derivation claim -/

lemma splitOnChar_shape (c : Char) (l : List Char) :
    ∃ g gs, splitOnChar c l = g :: gs := by
  induction l with
  | nil => exact ⟨[], [], rfl⟩
  | cons a rest ih =>
    obtain ⟨g, gs, hg⟩ := ih
    simp only [splitOnChar, hg]
    split
    · exact ⟨[], g :: gs, rfl⟩
    · exact ⟨a :: g, gs, rfl⟩

lemma splitOnChar_ne_nil (c : Char) (l : List Char) : splitOnChar c l ≠ [] := by
  obtain ⟨g, gs, hg⟩ := splitOnChar_shape c l
  simp [hg]

lemma splitOnChar_not_mem (c : Char) (l : List Char) (h : c ∉ l) :
    splitOnChar c l = [l] := by
  induction l with
  | nil => rfl
  | cons a rest ih =>
    have ha : ¬(a = c) := fun hh => h (hh ▸ List.mem_cons_self a rest)
    have h' : c ∉ rest := fun hm => h (List.mem_cons_of_mem _ hm)
    simp [splitOnChar, ih h', ha]

lemma splitOnChar_length_ge_two (c : Char) (pre suf : List Char) :
    2 ≤ (splitOnChar c (pre ++ c :: suf)).length := by
  induction pre with
  | nil =>
    obtain ⟨g, gs, hg⟩ := splitOnChar_shape c suf
    simp only [List.nil_append, splitOnChar, hg]
    simp
  | cons a pre ih =>
    obtain ⟨g, gs, hg⟩ := splitOnChar_shape c (pre ++ c :: suf)
    rw [hg] at ih
    simp only [List.cons_append, splitOnChar, List.append_eq, hg]
    split <;> simp at ih ⊢ <;> omega

lemma splitOnChar_getLast (c : Char) (pre seg : List Char) (h : c ∉ seg) :
    (splitOnChar c (pre ++ c :: seg)).getLast? = some seg := by
  induction pre with
  | nil =>
    simp [splitOnChar, splitOnChar_not_mem c seg h]
  | cons a pre ih =>
    have h2 := splitOnChar_length_ge_two c pre seg
    obtain ⟨g, gs, hg⟩ := splitOnChar_shape c (pre ++ c :: seg)
    rw [hg] at ih h2
    obtain ⟨x, xs, rfl⟩ : ∃ x xs, gs = x :: xs := by
      cases gs with
      | nil => simp at h2
      | cons x xs => exact ⟨x, xs, rfl⟩
    rw [List.getLast?_cons_cons] at ih
    simp only [List.cons_append, splitOnChar, List.append_eq, hg]
    split
    · rw [List.getLast?_cons_cons, List.getLast?_cons_cons]; exact ih
    · rw [List.getLast?_cons_cons]; exact ih

lemma fsExists_fsRemove (fs : FS) (p : FilePath') :
    fsExists (fsRemove fs p) p = false := by
  simp [fsExists, fsRemove, List.any_eq_true, List.mem_filter]

lemma dirLeads_append (as bs : FilePath') : dirLeads as (as ++ bs) = true := by
  induction as with
  | nil => rfl
  | cons a as ih => simp [dirLeads, ih]

lemma fsDirExists_of_destPath (fs : FS) (root : FilePath') (url : String)
    (episodeId podcastId : Int)
    (h : fsExists fs (downloadDestPath root url episodeId podcastId) = true) :
    fsDirExists fs (downloadPodcastDir root podcastId) = true := by
  unfold downloadDestPath at h
  simp only [fsExists, List.any_eq_true, decide_eq_true_eq] at h
  obtain ⟨e, he, hp⟩ := h
  simp only [fsDirExists, List.any_eq_true]
  exact ⟨e, he, by rw [hp]; exact dirLeads_append _ _⟩

lemma take_length_take {α : Type} (l : List α) (n : Nat) :
    l.take ((l.take n).length) = l.take n := by
  rcases le_total n l.length with h | h
  · have hl : (l.take n).length = n := by rw [List.length_take]; omega
    rw [hl]
  · have hl : (l.take n).length = l.length := by rw [List.length_take]; omega
    rw [hl, List.take_length, List.take_of_length_le h]

/-- Concrete environments for the closed example theorems below. -/
def exampleDlWorldIdle : DlWorld := ⟨true, true, true, none, fun _ => 1⟩

def exampleFsExisting : FS := [(["root", "2", "e.mp3"], [9])]

/-! ### Claim theorems -/

/-- C7: the derived download filename equals the last `/`-separated segment of
the URL whenever that segment contains a `.` and its length is below 255, and
equals `<episode_id>.mp3` otherwise (`FileManager::extract_filename_from_url`);
for a URL without `/` the last segment is the URL itself. -/
theorem extract_filename_from_url_spec :
    (∀ (pre seg : List Char) (episodeId : Int), '/' ∉ seg →
      extractFilenameFromUrl (pre ++ '/' :: seg) episodeId =
        if seg.contains '.' ∧ seg.length < 255 then seg
        else (toString episodeId).toList ++ (".mp3").toList) ∧
    (∀ (url : List Char) (episodeId : Int), '/' ∉ url →
      extractFilenameFromUrl url episodeId =
        if url.contains '.' ∧ url.length < 255 then url
        else (toString episodeId).toList ++ (".mp3").toList) := by
  constructor
  · intro pre seg episodeId h
    unfold extractFilenameFromUrl
    rw [splitOnChar_getLast '/' pre seg h]
  · intro url episodeId h
    unfold extractFilenameFromUrl
    rw [splitOnChar_not_mem '/' url h]
    rfl

theorem extract_filename_from_url_spec_witness :
    ('/' ∉ ("episode123.mp3").toList) ∧
    extractFilenameFromUrl
        (("https://example.com/podcast").toList ++ '/' :: ("episode123.mp3").toList) 456 =
      (if ("episode123.mp3").toList.contains '.' ∧ ("episode123.mp3").toList.length < 255
        then ("episode123.mp3").toList
        else (toString (456 : Int)).toList ++ (".mp3").toList) :=
  ⟨by decide, extract_filename_from_url_spec.1 _ _ 456 (by decide)⟩

/-- C1: when the destination file `<download_root>/<podcast_id>/<derived_filename>`
already exists, `download_episode` returns the existing path, records exactly one
`Completed` progress entry at percentage 100, performs no network request, and
leaves the filesystem (hence the existing file's contents) unchanged. -/
theorem download_episode_idempotent_short_circuit (w : DlWorld) (fs : FS)
    (root : FilePath') (url : String) (episodeId podcastId : Int)
    (h : fsExists fs (downloadDestPath root url episodeId podcastId) = true) :
    downloadEpisode w fs root url episodeId podcastId =
      { result := .ok (pathToString (downloadDestPath root url episodeId podcastId)),
        fs := fs,
        trace := [⟨episodeId, 0, 0, 100, 0, none, .Completed⟩],
        networkRequests := 0 } := by
  have hdir := fsDirExists_of_destPath fs root url episodeId podcastId h
  unfold downloadEpisode
  simp [h, hdir]

theorem download_episode_idempotent_short_circuit_witness :
    fsExists exampleFsExisting (downloadDestPath ["root"] "http://x/e.mp3" 1 2) = true ∧
    downloadEpisode exampleDlWorldIdle exampleFsExisting ["root"] "http://x/e.mp3" 1 2 =
      { result := .ok (pathToString (downloadDestPath ["root"] "http://x/e.mp3" 1 2)),
        fs := exampleFsExisting,
        trace := [⟨1, 0, 0, 100, 0, none, .Completed⟩],
        networkRequests := 0 } :=
  ⟨by decide, download_episode_idempotent_short_circuit _ _ _ _ _ _ (by decide)⟩

/-- C3 counterexample: in the spec's scenario (expected files `a.mp3`, `b.mp3`;
device scan finds only `a.mp3`), the sync command reports `updated_episodes = 0`
— not 1 — and returns the episode list unchanged, so the episode owning `b.mp3`
keeps `on_device = true`. -/
theorem sync_reports_zero_updated_episodes :
    syncEpisodeDeviceStatusCmd ["a.mp3"] ["a.mp3", "b.mp3"]
        [⟨1, some "/downloads/1/a.mp3", true⟩, ⟨2, some "/downloads/1/b.mp3", true⟩] 5 =
      (⟨1, 0, 5, false⟩,
        [⟨1, some "/downloads/1/a.mp3", true⟩, ⟨2, some "/downloads/1/b.mp3", true⟩]) := by
  decide

/-- C3 amended: in the scenario (device scan `{a.mp3}`, expected
`{a.mp3, b.mp3}`), the sync command reports `processed_files = 1` and
`is_consistent = false`, but `updated_episodes = 0` (hard-coded pending database
integration) and it changes no episode's `on_device` flag — the episode list is
returned untouched. -/
theorem sync_scenario_report_and_no_flip (episodes : List Episode) (durationMs : Nat) :
    syncEpisodeDeviceStatusCmd ["a.mp3"] ["a.mp3", "b.mp3"] episodes durationMs =
      (⟨1, 0, durationMs, false⟩, episodes) := by
  unfold syncEpisodeDeviceStatusCmd sync_device_episode_status
  simp

/-- C10 counterexample: when the episode's local file exists but
`fs::remove_file` fails, `delete_episode` returns the error before reaching the
table removal, so the episode's entry is still in the download-progress table —
the claim's "succeeds and in every case removes the entry" fails. -/
theorem delete_episode_remove_failure_keeps_entry :
    (deleteEpisode false [(["root", "1", "6.mp3"], [9])]
        [(6, ⟨6, 0, 0, 0, 0, none, .Pending⟩)] ["root"] 1 6).1 =
      .error (.IoError "Failed to remove episode file") ∧
    (deleteEpisode false [(["root", "1", "6.mp3"], [9])]
        [(6, ⟨6, 0, 0, 0, 0, none, .Pending⟩)] ["root"] 1 6).2.2.find?
        (fun e => decide (e.1 = 6)) = some (6, ⟨6, 0, 0, 0, 0, none, .Pending⟩) :=
  ⟨by decide, by decide⟩

/-- C10 amended: `delete_episode` returns `Ok` whenever the episode's local file
does not exist or its removal succeeds, and then it removes the episode's entry
from the download-progress table and repeating the call (with any removal
outcome) changes nothing further; but when the file exists and `fs::remove_file`
fails, the error propagates before the table removal and the entry stays. -/
theorem delete_episode_ok_total_and_idempotent (removeOk : Bool) (fs : FS)
    (downloads : Downloads) (root : FilePath') (podcastId episodeId : Int)
    (h : fsExists fs (getEpisodePath root podcastId episodeId) = false ∨
      removeOk = true) :
    (deleteEpisode removeOk fs downloads root podcastId episodeId).1 = .ok () ∧
    (deleteEpisode removeOk fs downloads root podcastId episodeId).2.2.find?
        (fun e => decide (e.1 = episodeId)) = none ∧
    ∀ removeOk2 : Bool,
      deleteEpisode removeOk2
          (deleteEpisode removeOk fs downloads root podcastId episodeId).2.1
          (deleteEpisode removeOk fs downloads root podcastId episodeId).2.2
          root podcastId episodeId =
        (.ok (), (deleteEpisode removeOk fs downloads root podcastId episodeId).2.1,
          (deleteEpisode removeOk fs downloads root podcastId episodeId).2.2) := by
  by_cases hex : fsExists fs (getEpisodePath root podcastId episodeId) = true
  · have hro : removeOk = true := by
      rcases h with h | h
      · rw [hex] at h; exact absurd h (by simp)
      · exact h
    subst hro
    refine ⟨?_, ?_, ?_⟩
    · simp [deleteEpisode, hex]
    · simp [deleteEpisode, hex, List.find?_eq_none, List.mem_filter]
    · intro removeOk2
      simp [deleteEpisode, hex, fsExists_fsRemove, List.filter_filter]
  · have hex' : fsExists fs (getEpisodePath root podcastId episodeId) = false := by
      cases hval : fsExists fs (getEpisodePath root podcastId episodeId)
      · rfl
      · exact absurd hval hex
    refine ⟨?_, ?_, ?_⟩
    · simp [deleteEpisode, hex']
    · simp [deleteEpisode, hex', List.find?_eq_none, List.mem_filter]
    · intro removeOk2
      simp [deleteEpisode, hex', List.filter_filter]

theorem delete_episode_ok_total_and_idempotent_witness :
    (fsExists [] (getEpisodePath ["root"] 1 6) = false ∨ (false : Bool) = true) ∧
    ((deleteEpisode false [] [(6, ⟨6, 0, 0, 0, 0, none, .Pending⟩)] ["root"] 1 6).1 =
        .ok () ∧
      (deleteEpisode false [] [(6, ⟨6, 0, 0, 0, 0, none, .Pending⟩)]
          ["root"] 1 6).2.2.find? (fun e => decide (e.1 = 6)) = none ∧
      ∀ removeOk2 : Bool,
        deleteEpisode removeOk2
            (deleteEpisode false [] [(6, ⟨6, 0, 0, 0, 0, none, .Pending⟩)]
              ["root"] 1 6).2.1
            (deleteEpisode false [] [(6, ⟨6, 0, 0, 0, 0, none, .Pending⟩)]
              ["root"] 1 6).2.2 ["root"] 1 6 =
          (.ok (),
            (deleteEpisode false [] [(6, ⟨6, 0, 0, 0, 0, none, .Pending⟩)]
              ["root"] 1 6).2.1,
            (deleteEpisode false [] [(6, ⟨6, 0, 0, 0, 0, none, .Pending⟩)]
              ["root"] 1 6).2.2)) :=
  ⟨Or.inl (by decide),
   delete_episode_ok_total_and_idempotent false [] [(6, ⟨6, 0, 0, 0, 0, none, .Pending⟩)]
     ["root"] 1 6 (Or.inl (by decide))⟩

lemma transferLoop_copies (e : Nat → Nat) (src : List Nat) :
    ∀ (fuel : Nat) (st : UsbLoopState),
      st.destBytes = src.take st.transferred →
      st.transferred ≤ src.length →
      src.length - st.transferred < fuel →
      (transferLoop e src src.length fuel st).destBytes = src ∧
      (transferLoop e src src.length fuel st).transferred = src.length := by
  intro fuel
  induction fuel with
  | zero => intro st _ _ hf; omega
  | succ fuel ih =>
    intro st hdest hle hf
    simp only [transferLoop]
    by_cases hlt : st.transferred < src.length
    · rw [if_pos hlt]
      have hdrop : src.drop st.transferred ≠ [] := by
        rw [ne_eq, List.drop_eq_nil_iff]; omega
      have hchunk : (src.drop st.transferred).take bufferSize ≠ [] := by
        cases hd : src.drop st.transferred with
        | nil => exact absurd hd hdrop
        | cons x xs => simp [bufferSize]
      rw [if_neg hchunk]
      have hclen : 0 < ((src.drop st.transferred).take bufferSize).length :=
        List.length_pos.mpr hchunk
      have hcle : ((src.drop st.transferred).take bufferSize).length ≤
          src.length - st.transferred := by
        rw [List.length_take, List.length_drop]; omega
      refine ih _ ?_ ?_ ?_
      · show st.destBytes ++ _ = src.take (st.transferred + _)
        rw [hdest, List.take_add src st.transferred, take_length_take]
      · show st.transferred + _ ≤ src.length
        omega
      · show src.length - (st.transferred + _) < fuel
        omega
    · rw [if_neg hlt]
      have heq : st.transferred = src.length := by omega
      constructor
      · rw [hdest, heq, List.take_length]
      · exact heq

/-- C4: whenever `get_device_info` reports available space smaller than the
source file's size, `transfer_file` fails with the insufficient-space error and
the filesystem is unchanged — no destination file is created and no byte is
written under the device root. -/
theorem transfer_insufficient_space_preflight (w : UsbWorld) (fs : FS)
    (sourcePath devicePath : FilePath') (filename : String) (src : List Nat)
    (info : UsbDevice)
    (hs : fsRead fs sourcePath = some src)
    (hd : w.devExists = true) (hm : w.metadataOk = true)
    (hi : w.deviceInfo = some info)
    (hspace : info.available_space < src.length) :
    (transferFile w fs sourcePath devicePath filename).result =
      .error (.FileTransferFailed (insufficientSpaceMsg src.length info.available_space)) ∧
    (transferFile w fs sourcePath devicePath filename).fs = fs := by
  unfold transferFile
  rw [hs]
  simp [hd, hm, hi, hspace]

def exampleUsbWorldSmallDevice : UsbWorld :=
  ⟨true, true, some ⟨"id", "name", "/dev", 100, 2, true⟩, true, fun _ => 1⟩

def exampleFsSource : FS := [(["src.mp3"], [1, 2, 3])]

theorem transfer_insufficient_space_preflight_witness :
    fsRead exampleFsSource ["src.mp3"] = some [1, 2, 3] ∧
    exampleUsbWorldSmallDevice.devExists = true ∧
    exampleUsbWorldSmallDevice.metadataOk = true ∧
    exampleUsbWorldSmallDevice.deviceInfo = some ⟨"id", "name", "/dev", 100, 2, true⟩ ∧
    (2 : Nat) < 3 ∧
    (transferFile exampleUsbWorldSmallDevice exampleFsSource ["src.mp3"] ["dev"]
        "f.mp3").result =
      .error (.FileTransferFailed (insufficientSpaceMsg 3 2)) ∧
    (transferFile exampleUsbWorldSmallDevice exampleFsSource ["src.mp3"] ["dev"]
        "f.mp3").fs = exampleFsSource :=
  ⟨by decide, by decide, by decide, by decide, by decide,
    (transfer_insufficient_space_preflight _ _ _ _ _ [1, 2, 3] ⟨"id", "name", "/dev", 100, 2, true⟩
      (by decide) (by decide) (by decide) (by decide) (by decide)).1,
    (transfer_insufficient_space_preflight _ _ _ _ _ [1, 2, 3] ⟨"id", "name", "/dev", 100, 2, true⟩
      (by decide) (by decide) (by decide) (by decide) (by decide)).2⟩

/-- C9: when the device path exists on the filesystem but `get_device_info`
fails (the path is not a recognized mounted disk), `transfer_file` skips the
available-space pre-flight entirely and proceeds: the copy succeeds and the
full source contents are written to `<device_path>/PodPico/<filename>`. -/
theorem transfer_skips_space_check_without_device_info (w : UsbWorld) (fs : FS)
    (sourcePath devicePath : FilePath') (filename : String) (src : List Nat)
    (hs : fsRead fs sourcePath = some src)
    (hd : w.devExists = true) (hm : w.metadataOk = true)
    (hi : w.deviceInfo = none) (hc : w.dirCreateOk = true) :
    (transferFile w fs sourcePath devicePath filename).result = .ok () ∧
    (transferFile w fs sourcePath devicePath filename).fs =
      fsWrite fs (transferDestPath devicePath filename) src := by
  have hcopy := transferLoop_copies w.elapsedSecs src (src.length + 1)
    { destBytes := [], transferred := 0, idx := 0,
      prog := updateTransferProgress
        ⟨0, pathToString devicePath, 0, 0, 0, 0, none, .Pending⟩ src.length 0 .InProgress,
      trace := [] }
    (by simp) (by simp) (by omega)
  unfold transferFile
  rw [hs]
  simp [hd, hm, hi, hc, hcopy.1]

def exampleUsbWorldNoInfo : UsbWorld := ⟨true, true, none, true, fun _ => 1⟩

theorem transfer_skips_space_check_without_device_info_witness :
    fsRead exampleFsSource ["src.mp3"] = some [1, 2, 3] ∧
    exampleUsbWorldNoInfo.deviceInfo = none ∧
    (transferFile exampleUsbWorldNoInfo exampleFsSource ["src.mp3"] ["dev"] "f.mp3").result =
      .ok () ∧
    (transferFile exampleUsbWorldNoInfo exampleFsSource ["src.mp3"] ["dev"] "f.mp3").fs =
      fsWrite exampleFsSource (transferDestPath ["dev"] "f.mp3") [1, 2, 3] :=
  ⟨by decide, by decide,
    (transfer_skips_space_check_without_device_info _ _ _ _ _ [1, 2, 3]
      (by decide) (by decide) (by decide) (by decide) (by decide)).1,
    (transfer_skips_space_check_without_device_info _ _ _ _ _ [1, 2, 3]
      (by decide) (by decide) (by decide) (by decide) (by decide)).2⟩

/-- Total number of bytes the response stream delivers before an error chunk
would end it (counting all successful chunks). -/
def sumChunks : List (Option (List Nat)) → Nat
  | [] => 0
  | none :: rest => sumChunks rest
  | some bs :: rest => bs.length + sumChunks rest

/-- The stream delivers no more bytes than the declared content length (or no
length was declared, in which case `total` stays 0). -/
def dlDeliveredWithinDeclared (w : DlWorld) : Prop :=
  match w.response with
  | none => True
  | some r => r.contentLength.getD 0 = 0 ∨ sumChunks r.chunks ≤ r.contentLength.getD 0

/-- The status moves the table entry may make, per the state machine
`Pending → InProgress → {Completed, Failed}` observed in the download engine. -/
def dlStatusStep : DownloadStatus → DownloadStatus → Bool
  | .Pending, .InProgress => true
  | .Pending, .Failed _ => true
  | .InProgress, .InProgress => true
  | .InProgress, .Completed => true
  | .InProgress, .Failed _ => true
  | _, _ => false

def dlIsTerminal : DownloadStatus → Bool
  | .Completed => true
  | .Failed _ => true
  | .Cancelled => true
  | _ => false

def usbStatusStep : TransferStatus → TransferStatus → Bool
  | .Pending, .InProgress => true
  | .Pending, .Failed _ => true
  | .InProgress, .InProgress => true
  | .InProgress, .Completed => true
  | .InProgress, .Failed _ => true
  | _, _ => false

def statusIsFailedD : DownloadStatus → Bool
  | .Failed _ => true
  | _ => false

def statusIsFailedT : TransferStatus → Bool
  | .Failed _ => true
  | _ => false

/-- The state update performed by one successful-chunk iteration of the
`download_with_progress` loop (the body of dlChunks' third branch). -/
def dlStepState (e : Nat → ℚ) (total : Nat) (bytes : List Nat) (st : DlLoopState) :
    DlLoopState :=
  let downloaded := st.downloaded + bytes.length
  let percentage : ℚ := if 0 < total then (downloaded : ℚ) / (total : ℚ) * 100 else 0
  let elapsed := e st.idx
  let speed : ℚ := if 0 < elapsed then (downloaded : ℚ) / elapsed else 0
  let prog := updateDownloadStatusWithSpeed st.prog .InProgress percentage downloaded total speed
  { fileBytes := st.fileBytes ++ bytes, downloaded := downloaded, idx := st.idx + 1,
    prog := prog, trace := st.trace ++ [prog] }

lemma dlChunks_cons_some (e : Nat → ℚ) (total : Nat) (bytes : List Nat)
    (rest : List (Option (List Nat))) (st : DlLoopState) :
    dlChunks e total (some bytes :: rest) st =
      dlChunks e total rest (dlStepState e total bytes st) := rfl

@[simp] lemma dlStepState_downloaded (e total bytes st) :
    (dlStepState e total bytes st).downloaded = st.downloaded + bytes.length := rfl

@[simp] lemma dlStepState_trace (e total bytes st) :
    (dlStepState e total bytes st).trace =
      st.trace ++ [(dlStepState e total bytes st).prog] := rfl

@[simp] lemma dlStepState_prog_downloaded (e total bytes st) :
    (dlStepState e total bytes st).prog.downloaded_bytes =
      st.downloaded + bytes.length := by
  simp [dlStepState]

@[simp] lemma dlStepState_prog_status (e total bytes st) :
    (dlStepState e total bytes st).prog.status = DownloadStatus.InProgress := by
  simp [dlStepState]

lemma dlStepState_prog_percentage (e total bytes st) :
    (dlStepState e total bytes st).prog.percentage =
      if 0 < total then ((st.downloaded + bytes.length : Nat) : ℚ) / (total : ℚ) * 100
      else 0 := by
  simp [dlStepState]

lemma dlChunks_spec (e : Nat → ℚ) (total : Nat) :
    ∀ (chunks : List (Option (List Nat))) (st : DlLoopState),
      st.prog.downloaded_bytes = st.downloaded →
      st.prog.status = .InProgress →
      (∀ p ∈ st.trace, p.status = .InProgress ∧ p.downloaded_bytes ≤ st.downloaded) →
      List.Chain' (fun a b => a.downloaded_bytes ≤ b.downloaded_bytes) st.trace →
      (dlChunks e total chunks st).2.prog.downloaded_bytes =
          (dlChunks e total chunks st).2.downloaded ∧
      (dlChunks e total chunks st).2.prog.status = .InProgress ∧
      (∀ p ∈ (dlChunks e total chunks st).2.trace,
        p.status = .InProgress ∧
          p.downloaded_bytes ≤ (dlChunks e total chunks st).2.downloaded) ∧
      List.Chain' (fun a b => a.downloaded_bytes ≤ b.downloaded_bytes)
        (dlChunks e total chunks st).2.trace ∧
      ((dlChunks e total chunks st).2.trace.getLast? =
          some (dlChunks e total chunks st).2.prog ∨
        ((dlChunks e total chunks st).2.trace = st.trace ∧
          (dlChunks e total chunks st).2.prog = st.prog)) := by
  intro chunks
  induction chunks with
  | nil =>
    intro st h1 h2 h3 h4
    exact ⟨h1, h2, h3, h4, Or.inr ⟨rfl, rfl⟩⟩
  | cons c rest ih =>
    cases c with
    | none =>
      intro st h1 h2 h3 h4
      exact ⟨h1, h2, h3, h4, Or.inr ⟨rfl, rfl⟩⟩
    | some bytes =>
      intro st h1 h2 h3 h4
      rw [dlChunks_cons_some]
      have hstep := ih (dlStepState e total bytes st)
        (by simp) (by simp)
        (by
          intro p hp
          rw [dlStepState_trace] at hp
          rcases List.mem_append.mp hp with hp | hp
          · obtain ⟨hps, hpd⟩ := h3 p hp
            exact ⟨hps, by simp; omega⟩
          · rcases List.mem_singleton.mp hp with rfl
            exact ⟨by simp, by simp⟩)
        (by
          rw [dlStepState_trace]
          apply List.chain'_append.mpr
          refine ⟨h4, List.chain'_singleton _, ?_⟩
          intro x hx y hy
          have hxm : x ∈ st.trace := getLast?_mem hx
          simp only [List.head?_cons, Option.mem_def, Option.some.injEq] at hy
          subst hy
          simp only [dlStepState_prog_downloaded]
          exact le_trans (h3 x hxm).2 (Nat.le_add_right _ _))
      refine ⟨hstep.1, hstep.2.1, hstep.2.2.1, hstep.2.2.2.1, ?_⟩
      rcases hstep.2.2.2.2 with hlast | ⟨htr, hpr⟩
      · exact Or.inl hlast
      · left
        rw [htr, hpr, dlStepState_trace]
        exact List.getLast?_concat _

lemma dlChunks_percentage (e : Nat → ℚ) (total : Nat) :
    ∀ (chunks : List (Option (List Nat))) (st : DlLoopState),
      (∀ p ∈ st.trace, p.percentage ≤ 100) →
      (total = 0 ∨ st.downloaded + sumChunks chunks ≤ total) →
      ∀ p ∈ (dlChunks e total chunks st).2.trace, p.percentage ≤ 100 := by
  intro chunks
  induction chunks with
  | nil => exact fun st h _ => h
  | cons c rest ih =>
    cases c with
    | none => exact fun st h _ => h
    | some bytes =>
      intro st h hcond
      simp only [dlChunks]
      apply ih
      · intro p hp
        rcases List.mem_append.mp hp with hp | hp
        · exact h p hp
        · rcases List.mem_singleton.mp hp with rfl
          simp only [updateDownloadStatusWithSpeed_percentage]
          rcases Nat.eq_zero_or_pos total with h0 | hpos
          · simp [h0]
          · rw [if_pos hpos]
            rcases hcond with h0 | hle
            · omega
            · have hd : st.downloaded + bytes.length ≤ total := by
                have hsum : sumChunks (some bytes :: rest) =
                    bytes.length + sumChunks rest := rfl
                omega
              have ht : (0 : ℚ) < (total : ℚ) := by exact_mod_cast hpos
              have hdc : ((st.downloaded + bytes.length : Nat) : ℚ) ≤ (total : ℚ) := by
                exact_mod_cast hd
              have h1 : ((st.downloaded + bytes.length : Nat) : ℚ) / (total : ℚ) ≤ 1 :=
                div_le_one_of_le hdc (le_of_lt ht)
              have h2 := mul_le_mul_of_nonneg_right h1 (by norm_num : (0 : ℚ) ≤ 100)
              simpa using h2
      · rcases hcond with h0 | hle
        · exact Or.inl h0
        · right
          have hsum : sumChunks (some bytes :: rest) = bytes.length + sumChunks rest := rfl
          simp only []
          omega

lemma downloadWithProgress_spec (w : DlWorld) (fs : FS) (fp : FilePath')
    (prog0 : DownloadProgress) (r : Except PodPicoError String) (fs' : FS)
    (progLast : DownloadProgress) (tr : List DownloadProgress)
    (h : downloadWithProgress w fs fp prog0 = (r, fs', progLast, tr)) :
    tr ≠ [] ∧
    (∀ p ∈ tr, p.status = .InProgress) ∧
    List.Chain' (fun a b => a.downloaded_bytes ≤ b.downloaded_bytes) tr ∧
    tr.getLast? = some progLast ∧
    (dlDeliveredWithinDeclared w → ∀ p ∈ tr, p.percentage ≤ 100) := by
  unfold downloadWithProgress at h
  cases hr : w.response with
  | none =>
    rw [hr] at h
    simp only [Prod.mk.injEq] at h
    obtain ⟨-, -, hpl, htr⟩ := h
    subst hpl; subst htr
    refine ⟨by simp, ?_, List.chain'_singleton _, by simp, ?_⟩
    · intro p hp; rcases List.mem_singleton.mp hp with rfl; simp
    · intro _ p hp; rcases List.mem_singleton.mp hp with rfl; simp
  | some resp =>
    rw [hr] at h
    by_cases hok : resp.statusOk
    · simp only [hok, Bool.not_true, Bool.false_eq_true, if_false] at h
      by_cases hfc : w.fileCreateOk
      · simp only [hfc, Bool.not_true, Bool.false_eq_true, if_false] at h
        rcases hloop : dlChunks w.elapsedSecs (resp.contentLength.getD 0) resp.chunks
            { fileBytes := [], downloaded := 0, idx := 0,
              prog := updateDownloadStatus prog0 .InProgress 0 0 0, trace := [] }
          with ⟨rr, st'⟩
        have hspec := dlChunks_spec w.elapsedSecs (resp.contentLength.getD 0) resp.chunks
          { fileBytes := [], downloaded := 0, idx := 0,
            prog := updateDownloadStatus prog0 .InProgress 0 0 0, trace := [] }
          (by simp) (by simp) (by simp) (by simp)
        rw [hloop] at hspec h
        have hperc : dlDeliveredWithinDeclared w → ∀ p ∈ st'.trace, p.percentage ≤ 100 := by
          intro hcond
          have := dlChunks_percentage w.elapsedSecs (resp.contentLength.getD 0) resp.chunks
            { fileBytes := [], downloaded := 0, idx := 0,
              prog := updateDownloadStatus prog0 .InProgress 0 0 0, trace := [] }
            (by simp)
            (by
              unfold dlDeliveredWithinDeclared at hcond
              rw [hr] at hcond
              simpa using hcond)
          rw [hloop] at this
          exact this
        have htr : tr = updateDownloadStatus prog0 .InProgress 0 0 0 :: st'.trace ∧
            progLast = st'.prog := by
          cases rr with
          | error e =>
            simp only [Prod.mk.injEq] at h
            exact ⟨h.2.2.2.symm, h.2.2.1.symm⟩
          | ok u =>
            simp only [Prod.mk.injEq] at h
            exact ⟨h.2.2.2.symm, h.2.2.1.symm⟩
        obtain ⟨htr, hpl⟩ := htr
        subst htr; subst hpl
        refine ⟨by simp, ?_, ?_, ?_, ?_⟩
        · intro p hp
          rcases List.mem_cons.mp hp with rfl | hp
          · simp
          · exact (hspec.2.2.1 p hp).1
        · apply List.chain'_cons'.mpr
          refine ⟨fun y _ => by simp, hspec.2.2.2.1⟩
        · rcases hspec.2.2.2.2 with hlast | ⟨hnil, hprog⟩
          · cases hst : st'.trace with
            | nil => rw [hst] at hlast; simp at hlast
            | cons x xs =>
              rw [List.getLast?_cons_cons]
              rw [hst] at hlast
              exact hlast
          · simp only [] at hnil hprog
            rw [hnil, hprog]
            simp
        · intro hcond p hp
          rcases List.mem_cons.mp hp with rfl | hp
          · simp
          · exact hperc hcond p hp
      · simp only [hfc, Bool.not_false, if_true, Prod.mk.injEq] at h
        obtain ⟨-, -, hpl, htr⟩ := h
        subst hpl; subst htr
        refine ⟨by simp, ?_, List.chain'_singleton _, by simp, ?_⟩
        · intro p hp; rcases List.mem_singleton.mp hp with rfl; simp
        · intro _ p hp; rcases List.mem_singleton.mp hp with rfl; simp
    · simp only [hok, Bool.not_false, if_true, Prod.mk.injEq] at h
      obtain ⟨-, -, hpl, htr⟩ := h
      subst hpl; subst htr
      refine ⟨by simp, ?_, List.chain'_singleton _, by simp, ?_⟩
      · intro p hp; rcases List.mem_singleton.mp hp with rfl; simp
      · intro _ p hp; rcases List.mem_singleton.mp hp with rfl; simp

lemma pct_le_100 (d t : Nat) (h : d ≤ t) :
    (if 0 < t then (d : ℚ) / (t : ℚ) * 100 else 0) ≤ 100 := by
  rcases Nat.eq_zero_or_pos t with h0 | hpos
  · simp [h0]
  · rw [if_pos hpos]
    have ht : (0 : ℚ) < (t : ℚ) := by exact_mod_cast hpos
    have hdc : (d : ℚ) ≤ (t : ℚ) := by exact_mod_cast h
    have h1 : (d : ℚ) / (t : ℚ) ≤ 1 := div_le_one_of_le hdc (le_of_lt ht)
    have h2 := mul_le_mul_of_nonneg_right h1 (by norm_num : (0 : ℚ) ≤ 100)
    simpa using h2

/-- Status lists recorded by one engine operation: an initial status, a block of
`InProgress` entries, and a final status, chained by the step relation. -/
lemma chain'_step_all_mid {σ : Type} (step : σ → σ → Bool) (ip xF : σ)
    (hii : step ip ip = true) (hF : step ip xF = true) :
    ∀ (l : List σ) (x0 : σ), (∀ s ∈ l, s = ip) → step x0 ip = true → l ≠ [] →
      List.Chain' (fun a b => step a b = true) (x0 :: l ++ [xF]) := by
  intro l
  induction l with
  | nil => intro x0 _ _ hne; exact absurd rfl hne
  | cons a as ih =>
    intro x0 hl h0 _
    have ha : a = ip := hl a (List.mem_cons_self _ _)
    subst ha
    cases as with
    | nil =>
      simp only [List.cons_append, List.nil_append]
      exact List.Chain'.cons h0 (List.Chain'.cons hF (List.chain'_singleton _))
    | cons b bs =>
      have hl' : ∀ s ∈ b :: bs, s = a := fun s hs => hl s (List.mem_cons_of_mem _ hs)
      exact List.Chain'.cons h0 (ih a hl' hii (by simp))

/-- The state update performed by one iteration of the `transfer_with_progress`
copy loop (the innermost branch of `transferLoop`). -/
def usbStepState (e : Nat → Nat) (src : List Nat) (total : Nat) (st : UsbLoopState) :
    UsbLoopState :=
  let chunk := (src.drop st.transferred).take bufferSize
  let transferred := st.transferred + chunk.length
  let elapsed := e st.idx
  let speed : ℚ := if 0 < elapsed then (transferred : ℚ) / (elapsed : ℚ) else 0
  let eta : Option Nat :=
    if 0 < speed then
      some (Int.toNat (Int.floor (((total - transferred : Nat) : ℚ) / speed)))
    else none
  let prog := updateTransferProgressDetailed st.prog total transferred speed eta .InProgress
  { destBytes := st.destBytes ++ chunk, transferred := transferred,
    idx := st.idx + 1, prog := prog, trace := st.trace ++ [prog] }

lemma transferLoop_zero (e : Nat → Nat) (src : List Nat) (total : Nat)
    (st : UsbLoopState) : transferLoop e src total 0 st = st := rfl

lemma transferLoop_succ (e : Nat → Nat) (src : List Nat) (total fuel : Nat)
    (st : UsbLoopState) :
    transferLoop e src total (fuel + 1) st =
      if st.transferred < total then
        if (src.drop st.transferred).take bufferSize = [] then st
        else transferLoop e src total fuel (usbStepState e src total st)
      else st := rfl

@[simp] lemma usbStepState_transferred (e src total st) :
    (usbStepState e src total st).transferred =
      st.transferred + ((src.drop st.transferred).take bufferSize).length := rfl

@[simp] lemma usbStepState_trace (e src total st) :
    (usbStepState e src total st).trace =
      st.trace ++ [(usbStepState e src total st).prog] := rfl

@[simp] lemma usbStepState_prog_transferred (e src total st) :
    (usbStepState e src total st).prog.transferred_bytes =
      st.transferred + ((src.drop st.transferred).take bufferSize).length := by
  simp [usbStepState]

@[simp] lemma usbStepState_prog_status (e src total st) :
    (usbStepState e src total st).prog.status = TransferStatus.InProgress := by
  simp [usbStepState]

lemma usbStepState_prog_percentage (e src total st) :
    (usbStepState e src total st).prog.percentage =
      if 0 < total then
        ((st.transferred + ((src.drop st.transferred).take bufferSize).length : Nat) : ℚ) /
          (total : ℚ) * 100
      else 0 := by
  simp [usbStepState]

lemma transferLoop_spec (e : Nat → Nat) (src : List Nat) :
    ∀ (fuel : Nat) (st : UsbLoopState),
      st.prog.transferred_bytes = st.transferred →
      st.prog.status = .InProgress →
      st.prog.percentage ≤ 100 →
      st.transferred ≤ src.length →
      (∀ p ∈ st.trace, p.status = .InProgress ∧
        p.transferred_bytes ≤ st.transferred ∧ p.percentage ≤ 100) →
      List.Chain' (fun a b => a.transferred_bytes ≤ b.transferred_bytes) st.trace →
      (transferLoop e src src.length fuel st).prog.transferred_bytes =
          (transferLoop e src src.length fuel st).transferred ∧
      (transferLoop e src src.length fuel st).prog.status = .InProgress ∧
      (transferLoop e src src.length fuel st).prog.percentage ≤ 100 ∧
      (transferLoop e src src.length fuel st).transferred ≤ src.length ∧
      (∀ p ∈ (transferLoop e src src.length fuel st).trace, p.status = .InProgress ∧
        p.transferred_bytes ≤ (transferLoop e src src.length fuel st).transferred ∧
        p.percentage ≤ 100) ∧
      List.Chain' (fun a b => a.transferred_bytes ≤ b.transferred_bytes)
        (transferLoop e src src.length fuel st).trace ∧
      ((transferLoop e src src.length fuel st).trace.getLast? =
          some (transferLoop e src src.length fuel st).prog ∨
        ((transferLoop e src src.length fuel st).trace = st.trace ∧
          (transferLoop e src src.length fuel st).prog = st.prog)) := by
  intro fuel
  induction fuel with
  | zero =>
    intro st h1 h2 h3 h4 h5 h6
    rw [transferLoop_zero]
    exact ⟨h1, h2, h3, h4, h5, h6, Or.inr ⟨rfl, rfl⟩⟩
  | succ fuel ih =>
    intro st h1 h2 h3 h4 h5 h6
    rw [transferLoop_succ]
    by_cases hlt : st.transferred < src.length
    · rw [if_pos hlt]
      by_cases hch : (src.drop st.transferred).take bufferSize = []
      · rw [if_pos hch]
        exact ⟨h1, h2, h3, h4, h5, h6, Or.inr ⟨rfl, rfl⟩⟩
      · rw [if_neg hch]
        have hclen : ((src.drop st.transferred).take bufferSize).length ≤
            src.length - st.transferred := by
          rw [List.length_take, List.length_drop]; omega
        have hle' : st.transferred + ((src.drop st.transferred).take bufferSize).length ≤
            src.length := by omega
        have hstep := ih (usbStepState e src src.length st)
          (by simp) (by simp)
          (by rw [usbStepState_prog_percentage]; exact pct_le_100 _ _ hle')
          (by simp; omega)
          (by
            intro p hp
            rw [usbStepState_trace] at hp
            rcases List.mem_append.mp hp with hp | hp
            · obtain ⟨hps, hpd, hpc⟩ := h5 p hp
              refine ⟨hps, ?_, hpc⟩
              simp only [usbStepState_transferred]
              omega
            · rcases List.mem_singleton.mp hp with rfl
              refine ⟨by simp, by simp, ?_⟩
              rw [usbStepState_prog_percentage]
              exact pct_le_100 _ _ hle')
          (by
            rw [usbStepState_trace]
            apply List.chain'_append.mpr
            refine ⟨h6, List.chain'_singleton _, ?_⟩
            intro x hx y hy
            have hxm : x ∈ st.trace := getLast?_mem hx
            simp only [List.head?_cons, Option.mem_def, Option.some.injEq] at hy
            subst hy
            simp only [usbStepState_prog_transferred]
            exact le_trans (h5 x hxm).2.1 (Nat.le_add_right _ _))
        refine ⟨hstep.1, hstep.2.1, hstep.2.2.1, hstep.2.2.2.1, hstep.2.2.2.2.1,
          hstep.2.2.2.2.2.1, ?_⟩
        rcases hstep.2.2.2.2.2.2 with hlast | ⟨htr, hpr⟩
        · exact Or.inl hlast
        · left
          rw [htr, hpr, usbStepState_trace]
          exact List.getLast?_concat _
    · rw [if_neg hlt]
      exact ⟨h1, h2, h3, h4, h5, h6, Or.inr ⟨rfl, rfl⟩⟩

/-- The trace produced by the successful copy branch of `transfer_file`
satisfies the per-operation progress invariants. -/
lemma usb_main_trace_facts (e : Nat → Nat) (src : List Nat) (prog0 : TransferProgress)
    (h1 : prog0.transferred_bytes = 0) (h2 : prog0.percentage = 0)
    (h3 : prog0.status = .Pending) :
    List.Chain' (fun a b => a.transferred_bytes ≤ b.transferred_bytes)
      (prog0 :: updateTransferProgress prog0 src.length 0 .InProgress ::
        (transferLoop e src src.length (src.length + 1)
          { destBytes := [], transferred := 0, idx := 0,
            prog := updateTransferProgress prog0 src.length 0 .InProgress,
            trace := [] }).trace ++
        [updateTransferStatus
          (transferLoop e src src.length (src.length + 1)
            { destBytes := [], transferred := 0, idx := 0,
              prog := updateTransferProgress prog0 src.length 0 .InProgress,
              trace := [] }).prog .Completed]) ∧
    (∀ p ∈ prog0 :: updateTransferProgress prog0 src.length 0 .InProgress ::
        (transferLoop e src src.length (src.length + 1)
          { destBytes := [], transferred := 0, idx := 0,
            prog := updateTransferProgress prog0 src.length 0 .InProgress,
            trace := [] }).trace ++
        [updateTransferStatus
          (transferLoop e src src.length (src.length + 1)
            { destBytes := [], transferred := 0, idx := 0,
              prog := updateTransferProgress prog0 src.length 0 .InProgress,
              trace := [] }).prog .Completed], p.percentage ≤ 100) ∧
    List.Chain' (fun a b => usbStatusStep a b = true)
      ((prog0 :: updateTransferProgress prog0 src.length 0 .InProgress ::
        (transferLoop e src src.length (src.length + 1)
          { destBytes := [], transferred := 0, idx := 0,
            prog := updateTransferProgress prog0 src.length 0 .InProgress,
            trace := [] }).trace ++
        [updateTransferStatus
          (transferLoop e src src.length (src.length + 1)
            { destBytes := [], transferred := 0, idx := 0,
              prog := updateTransferProgress prog0 src.length 0 .InProgress,
              trace := [] }).prog .Completed]).map (·.status)) := by
  have hpct1 : (updateTransferProgress prog0 src.length 0 .InProgress).percentage ≤ 100 := by
    rw [updateTransferProgress_percentage]
    have := pct_le_100 0 src.length (Nat.zero_le _)
    simpa using this
  obtain ⟨hp1, hp2, hp3, hp4, hall, hchain, hOr⟩ :=
    transferLoop_spec e src (src.length + 1)
      { destBytes := [], transferred := 0, idx := 0,
        prog := updateTransferProgress prog0 src.length 0 .InProgress, trace := [] }
      (by simp) (by simp) (by simpa using hpct1) (by simp) (by simp) (by simp)
  refine ⟨?_, ?_, ?_⟩
  · apply List.chain'_cons'.mpr
    refine ⟨fun y _ => by rw [h1]; exact Nat.zero_le _, ?_⟩
    apply List.chain'_cons'.mpr
    refine ⟨fun y _ => by simp, ?_⟩
    apply List.chain'_append.mpr
    refine ⟨hchain, List.chain'_singleton _, ?_⟩
    intro x hx y hy
    have hxm := getLast?_mem hx
    simp only [List.head?_cons, Option.mem_def, Option.some.injEq] at hy
    subst hy
    rw [updateTransferStatus_transferred, hp1]
    exact (hall x hxm).2.1
  · intro p hp
    rcases List.mem_cons.mp hp with rfl | hp
    · rw [h2]; norm_num
    rcases List.mem_cons.mp hp with rfl | hp
    · exact hpct1
    rcases List.mem_append.mp hp with hp | hp
    · exact (hall p hp).2.2
    · rcases List.mem_singleton.mp hp with rfl
      rw [updateTransferStatus_percentage]
      exact hp3
  · have hl : ∀ s ∈ (updateTransferProgress prog0 src.length 0 .InProgress ::
        (transferLoop e src src.length (src.length + 1)
          { destBytes := [], transferred := 0, idx := 0,
            prog := updateTransferProgress prog0 src.length 0 .InProgress,
            trace := [] }).trace).map (·.status), s = TransferStatus.InProgress := by
      intro s hs
      simp only [List.map_cons, List.mem_cons] at hs
      rcases hs with rfl | hs
      · simp
      · obtain ⟨p, hpm, rfl⟩ := List.mem_map.mp hs
        exact (hall p hpm).1
    have hchain2 := chain'_step_all_mid usbStatusStep .InProgress .Completed rfl rfl
      ((updateTransferProgress prog0 src.length 0 .InProgress ::
        (transferLoop e src src.length (src.length + 1)
          { destBytes := [], transferred := 0, idx := 0,
            prog := updateTransferProgress prog0 src.length 0 .InProgress,
            trace := [] }).trace).map (·.status))
      .Pending hl (by rfl) (by simp)
    simpa [List.map_cons, List.map_append, h3] using hchain2

/-- The two-entry failure trace `[Pending, Failed msg]` satisfies all the
per-operation progress invariants. -/
lemma usb_fail_pair_facts (prog0 : TransferProgress) (msg : String)
    (h1 : prog0.transferred_bytes = 0) (h2 : prog0.percentage = 0)
    (h3 : prog0.status = .Pending) :
    List.Chain' (fun a b => a.transferred_bytes ≤ b.transferred_bytes)
      [prog0, updateTransferStatus prog0 (.Failed msg)] ∧
    (∀ p ∈ [prog0, updateTransferStatus prog0 (.Failed msg)], p.percentage ≤ 100) ∧
    List.Chain' (fun a b => usbStatusStep a b = true)
      (([prog0, updateTransferStatus prog0 (.Failed msg)]).map (·.status)) ∧
    ([prog0, updateTransferStatus prog0 (.Failed msg)]).getLast?.map
        (fun p => statusIsFailedT p.status) = some true := by
  refine ⟨?_, ?_, ?_, ?_⟩
  · exact List.chain'_pair.mpr (by simp)
  · intro p hp
    rcases List.mem_cons.mp hp with rfl | hp
    · rw [h2]; norm_num
    · rcases List.mem_singleton.mp hp with rfl
      rw [updateTransferStatus_percentage, h2]; norm_num
  · simp only [List.map_cons, List.map_nil, updateTransferStatus_status, h3]
    exact List.chain'_pair.mpr rfl
  · simp [statusIsFailedT]

lemma transferFile_spec (w : UsbWorld) (fs : FS) (sourcePath devicePath : FilePath')
    (filename : String) :
    List.Chain' (fun a b => a.transferred_bytes ≤ b.transferred_bytes)
      (transferFile w fs sourcePath devicePath filename).trace ∧
    (∀ p ∈ (transferFile w fs sourcePath devicePath filename).trace,
      p.percentage ≤ 100) ∧
    List.Chain' (fun a b => usbStatusStep a b = true)
      ((transferFile w fs sourcePath devicePath filename).trace.map (·.status)) ∧
    (∀ e, (transferFile w fs sourcePath devicePath filename).result = .error e →
      ((transferFile w fs sourcePath devicePath filename).trace.getLast?.map
          (fun p => statusIsFailedT p.status) = some true) ∨
      ((w.metadataOk = false ∨ w.dirCreateOk = false) ∧
        (transferFile w fs sourcePath devicePath filename).trace.map (·.status) =
          [.Pending])) := by
  unfold transferFile
  cases hsr : fsRead fs sourcePath with
  | none =>
    have hfacts := usb_fail_pair_facts
      ⟨0, pathToString devicePath, 0, 0, 0, 0, none, .Pending⟩
      ("Source file not found: " ++ pathToString sourcePath) rfl rfl rfl
    exact ⟨hfacts.1, hfacts.2.1, hfacts.2.2.1, fun e _ => Or.inl hfacts.2.2.2⟩
  | some src =>
    cases hdev : w.devExists with
    | false =>
      simp only [Bool.not_false, if_true]
      have hfacts := usb_fail_pair_facts
        ⟨0, pathToString devicePath, 0, 0, 0, 0, none, .Pending⟩
        ("USB device not found: " ++ pathToString devicePath) rfl rfl rfl
      exact ⟨hfacts.1, hfacts.2.1, hfacts.2.2.1, fun e _ => Or.inl hfacts.2.2.2⟩
    | true =>
      simp only [Bool.not_true, Bool.false_eq_true, if_false]
      cases hmeta : w.metadataOk with
      | false =>
        simp only [Bool.not_false, if_true]
        refine ⟨List.chain'_singleton _, ?_, ?_, ?_⟩
        · intro p hp
          rcases List.mem_singleton.mp hp with rfl
          norm_num
        · exact List.chain'_singleton _
        · intro e _
          exact Or.inr ⟨Or.inl (by trivial), by trivial⟩
      | true =>
        simp only [Bool.not_true, Bool.false_eq_true, if_false]
        rcases hinfo : w.deviceInfo with _ | info
        · simp only [hinfo]
          cases hdir : w.dirCreateOk with
          | false =>
            simp only [Bool.not_false, if_true]
            refine ⟨List.chain'_singleton _, ?_, ?_, ?_⟩
            · intro p hp
              rcases List.mem_singleton.mp hp with rfl
              norm_num
            · exact List.chain'_singleton _
            · intro e _
              exact Or.inr ⟨Or.inr (by trivial), by trivial⟩
          | true =>
            simp only [Bool.not_true, Bool.false_eq_true, if_false]
            have hm := usb_main_trace_facts w.elapsedSecs src
              ⟨0, pathToString devicePath, 0, 0, 0, 0, none, .Pending⟩ rfl rfl rfl
            exact ⟨hm.1, hm.2.1, hm.2.2, fun e he => absurd he (by simp)⟩
        · simp only [hinfo]
          by_cases hspace : info.available_space < src.length
          · rw [if_pos hspace]
            have hfacts := usb_fail_pair_facts
              ⟨0, pathToString devicePath, 0, 0, 0, 0, none, .Pending⟩
              (insufficientSpaceMsg src.length info.available_space) rfl rfl rfl
            exact ⟨hfacts.1, hfacts.2.1, hfacts.2.2.1, fun e _ => Or.inl hfacts.2.2.2⟩
          · rw [if_neg hspace]
            cases hdir : w.dirCreateOk with
            | false =>
              simp only [Bool.not_false, if_true]
              refine ⟨List.chain'_singleton _, ?_, ?_, ?_⟩
              · intro p hp
                rcases List.mem_singleton.mp hp with rfl
                norm_num
              · exact List.chain'_singleton _
              · intro e _
                exact Or.inr ⟨Or.inr (by trivial), by trivial⟩
            | true =>
              simp only [Bool.not_true, Bool.false_eq_true, if_false]
              have hm := usb_main_trace_facts w.elapsedSecs src
                ⟨0, pathToString devicePath, 0, 0, 0, 0, none, .Pending⟩ rfl rfl rfl
              exact ⟨hm.1, hm.2.1, hm.2.2, fun e he => absurd he (by simp)⟩

lemma downloadEpisode_spec (w : DlWorld) (fs : FS) (root : FilePath') (url : String)
    (ep pid : Int) :
    List.Chain' (fun a b => a.downloaded_bytes ≤ b.downloaded_bytes)
      (downloadEpisode w fs root url ep pid).trace.dropLast ∧
    (dlDeliveredWithinDeclared w →
      ∀ p ∈ (downloadEpisode w fs root url ep pid).trace, p.percentage ≤ 100) ∧
    List.Chain' (fun a b => dlStatusStep a b = true)
      ((downloadEpisode w fs root url ep pid).trace.map (·.status)) ∧
    (∀ err, (downloadEpisode w fs root url ep pid).result = .error err →
      ((downloadEpisode w fs root url ep pid).trace.getLast?.map
          (fun p => statusIsFailedD p.status) = some true) ∨
      (w.dirWritable = false ∧
        (downloadEpisode w fs root url ep pid).trace.map (·.status) = [.Pending]) ∨
      (w.podcastDirCreateOk = false ∧
        (downloadEpisode w fs root url ep pid).trace = [])) ∧
    (∀ p ∈ (downloadEpisode w fs root url ep pid).trace, p.status = .Completed →
      p.total_bytes = 0 ∧ p.downloaded_bytes = 0 ∧ p.percentage = 100) := by
  unfold downloadEpisode
  cases hg : (fsDirExists fs (downloadPodcastDir root pid) || w.podcastDirCreateOk) with
  | false =>
    simp only [hg, Bool.not_false, if_true]
    refine ⟨List.chain'_nil, ?_, List.chain'_nil, ?_, ?_⟩
    · intro _ p hp
      simp at hp
    · intro err _
      exact Or.inr (Or.inr ⟨(Bool.or_eq_false_iff.mp hg).2, by trivial⟩)
    · intro p hp
      simp at hp
  | true =>
  simp only [hg, Bool.not_true, Bool.false_eq_true, if_false]
  by_cases hex : fsExists fs (downloadDestPath root url ep pid) = true
  · rw [if_pos hex]
    refine ⟨List.chain'_nil, ?_, List.chain'_singleton _, ?_, ?_⟩
    · intro _ p hp
      rcases List.mem_singleton.mp hp with rfl
      norm_num
    · intro err herr
      exact absurd herr (by simp)
    · intro p hp _
      rcases List.mem_singleton.mp hp with rfl
      exact ⟨rfl, rfl, rfl⟩
  · rw [if_neg hex]
    cases hw : w.dirWritable with
    | false =>
      simp only [Bool.not_false, if_true]
      refine ⟨List.chain'_nil, ?_, List.chain'_singleton _, ?_, ?_⟩
      · intro _ p hp
        rcases List.mem_singleton.mp hp with rfl
        norm_num
      · intro err _
        exact Or.inr (Or.inl ⟨by trivial, by trivial⟩)
      · intro p hp hs
        rcases List.mem_singleton.mp hp with rfl
        exact absurd hs (by simp)
    | true =>
      simp only [Bool.not_true, Bool.false_eq_true, if_false]
      rcases hdp : downloadWithProgress w fs (downloadDestPath root url ep pid)
          ⟨ep, 0, 0, 0, 0, none, .Pending⟩ with ⟨r, fs', progLast, tr⟩
      obtain ⟨hne, hall, hchain, hlastEq, hperc⟩ :=
        downloadWithProgress_spec w fs (downloadDestPath root url ep pid)
          ⟨ep, 0, 0, 0, 0, none, .Pending⟩ r fs' progLast tr hdp
      dsimp only
      have hstatus_mid : ∀ s ∈ tr.map (·.status), s = DownloadStatus.InProgress := by
        intro s hs
        obtain ⟨p, hpm, rfl⟩ := List.mem_map.mp hs
        exact hall p hpm
      have hmid_ne : tr.map (·.status) ≠ [] := by
        simpa using hne
      have hdrop : ∀ (pF : DownloadProgress),
          (⟨ep, 0, 0, 0, 0, none, .Pending⟩ :: tr ++ [pF] :
            List DownloadProgress).dropLast =
            ⟨ep, 0, 0, 0, 0, none, .Pending⟩ :: tr := by
        intro pF
        show ((⟨ep, 0, 0, 0, 0, none, .Pending⟩ :: tr) ++ [pF]).dropLast = _
        exact List.dropLast_concat
      have hdropChain : ∀ (pF : DownloadProgress),
          List.Chain' (fun a b => a.downloaded_bytes ≤ b.downloaded_bytes)
            ((⟨ep, 0, 0, 0, 0, none, .Pending⟩ :: tr ++ [pF] :
              List DownloadProgress).dropLast) := by
        intro pF
        rw [hdrop]
        exact List.chain'_cons'.mpr ⟨fun y _ => Nat.zero_le _, hchain⟩
      have hlastF : ∀ (pF : DownloadProgress),
          (⟨ep, 0, 0, 0, 0, none, .Pending⟩ :: tr ++ [pF] :
            List DownloadProgress).getLast? = some pF := by
        intro pF
        show ((⟨ep, 0, 0, 0, 0, none, .Pending⟩ :: tr) ++ [pF]).getLast? = some pF
        exact List.getLast?_concat _
      cases r with
      | ok path =>
        refine ⟨hdropChain _, ?_, ?_, ?_, ?_⟩
        · intro hcond p hp
          rcases List.mem_cons.mp hp with rfl | hp
          · norm_num
          rcases List.mem_append.mp hp with hp | hp
          · exact hperc hcond p hp
          · rcases List.mem_singleton.mp hp with rfl
            simp
        · have := chain'_step_all_mid dlStatusStep .InProgress .Completed rfl rfl
            (tr.map (·.status)) .Pending hstatus_mid rfl hmid_ne
          simpa [List.map_append] using this
        · intro err herr
          exact absurd herr (by simp)
        · intro p hp hs
          rcases List.mem_cons.mp hp with rfl | hp
          · exact absurd hs (by simp)
          rcases List.mem_append.mp hp with hp | hp
          · rw [hall p hp] at hs
            exact absurd hs (by simp)
          · rcases List.mem_singleton.mp hp with rfl
            exact ⟨by simp, by simp, by simp⟩
      | error e' =>
        refine ⟨hdropChain _, ?_, ?_, ?_, ?_⟩
        · intro hcond p hp
          rcases List.mem_cons.mp hp with rfl | hp
          · norm_num
          rcases List.mem_append.mp hp with hp | hp
          · exact hperc hcond p hp
          · rcases List.mem_singleton.mp hp with rfl
            simp
        · have := chain'_step_all_mid dlStatusStep .InProgress
            (.Failed (PodPicoError.toMessage e')) rfl rfl
            (tr.map (·.status)) .Pending hstatus_mid rfl hmid_ne
          simpa [List.map_append] using this
        · intro err _
          left
          rw [hlastF]
          simp [statusIsFailedD]
        · intro p hp hs
          rcases List.mem_cons.mp hp with rfl | hp
          · exact absurd hs (by simp)
          rcases List.mem_append.mp hp with hp | hp
          · rw [hall p hp] at hs
            exact absurd hs (by simp)
          · rcases List.mem_singleton.mp hp with rfl
            rw [updateDownloadStatusWithSpeed_status] at hs
            exact absurd hs (by simp)

def exampleDlWorldOverdelivery : DlWorld :=
  ⟨true, true, true, some ⟨true, some 1, [some [7, 7]]⟩, fun _ => 1⟩

def exampleDlWorldNoNetwork : DlWorld := ⟨true, true, true, none, fun _ => 1⟩

def exampleDlWorldUnwritable : DlWorld := ⟨true, false, true, none, fun _ => 1⟩

/-- C5 counterexample: with a declared content length of 1 byte and a stream
that delivers 2 bytes, the recorded percentages of the download are
`[0, 0, 200, 100]` — the entry recorded after the oversized chunk holds 200%,
so the recorded percentage can exceed 100. -/
theorem download_percentage_can_exceed_100 :
    ((downloadEpisode exampleDlWorldOverdelivery [] ["root"] "u" 1 2).trace.map
        (·.percentage))[2]? = some 200 ∧
    ¬((200 : ℚ) ≤ 100) := by
  refine ⟨?_, by norm_num⟩
  norm_num [downloadEpisode, downloadDestPath, downloadWithProgress, dlChunks,
    updateDownloadStatus, updateDownloadStatusWithSpeed, fsExists,
    exampleDlWorldOverdelivery, fsWrite, pathToString]

/-- C5 amended: for a device transfer, the recorded transferred byte counts are
non-decreasing and the recorded percentage never exceeds 100.  For a download,
the recorded byte counts are non-decreasing up to (but not including) the final
entry — the final `Completed`/`Failed` update resets the counts to 0 — and the
recorded percentage never exceeds 100 provided the stream delivers no more
bytes than the declared content length (it can exceed 100 otherwise). -/
theorem progress_monotonicity_amended :
    (∀ (w : UsbWorld) (fs : FS) (sourcePath devicePath : FilePath') (filename : String),
      List.Chain' (fun a b => a.transferred_bytes ≤ b.transferred_bytes)
        (transferFile w fs sourcePath devicePath filename).trace ∧
      ∀ p ∈ (transferFile w fs sourcePath devicePath filename).trace,
        p.percentage ≤ 100) ∧
    (∀ (w : DlWorld) (fs : FS) (root : FilePath') (url : String) (ep pid : Int),
      List.Chain' (fun a b => a.downloaded_bytes ≤ b.downloaded_bytes)
        (downloadEpisode w fs root url ep pid).trace.dropLast ∧
      (dlDeliveredWithinDeclared w →
        ∀ p ∈ (downloadEpisode w fs root url ep pid).trace, p.percentage ≤ 100)) :=
  ⟨fun w fs sp dp fn =>
    ⟨(transferFile_spec w fs sp dp fn).1, (transferFile_spec w fs sp dp fn).2.1⟩,
   fun w fs root url ep pid =>
    ⟨(downloadEpisode_spec w fs root url ep pid).1,
      (downloadEpisode_spec w fs root url ep pid).2.1⟩⟩

theorem progress_monotonicity_amended_witness :
    (List.Chain' (fun a b => a.transferred_bytes ≤ b.transferred_bytes)
      (transferFile exampleUsbWorldNoInfo exampleFsSource ["src.mp3"] ["dev"]
        "f.mp3").trace ∧
    ∀ p ∈ (transferFile exampleUsbWorldNoInfo exampleFsSource ["src.mp3"] ["dev"]
        "f.mp3").trace, p.percentage ≤ 100) ∧
    (List.Chain' (fun a b => a.downloaded_bytes ≤ b.downloaded_bytes)
      (downloadEpisode exampleDlWorldNoNetwork [] ["root"] "u" 1 2).trace.dropLast ∧
    ∀ p ∈ (downloadEpisode exampleDlWorldNoNetwork [] ["root"] "u" 1 2).trace,
      p.percentage ≤ 100) :=
  ⟨progress_monotonicity_amended.1 exampleUsbWorldNoInfo exampleFsSource
      ["src.mp3"] ["dev"] "f.mp3",
   ⟨(progress_monotonicity_amended.2 exampleDlWorldNoNetwork [] ["root"] "u" 1 2).1,
    (progress_monotonicity_amended.2 exampleDlWorldNoNetwork [] ["root"] "u" 1 2).2
      (by trivial)⟩⟩

/-- C6 counterexample: after a failed download the table entry ends in the
terminal state `Failed`; a retry of the same episode (same table key)
reinitializes the entry to `Pending`, so an engine operation does move an
entry out of a terminal state. -/
theorem retry_leaves_terminal_state :
    ((downloadEpisode exampleDlWorldNoNetwork [] ["root"] "u" 1 2).trace ++
      (downloadEpisode exampleDlWorldNoNetwork
        (downloadEpisode exampleDlWorldNoNetwork [] ["root"] "u" 1 2).fs
        ["root"] "u" 1 2).trace).map (·.status) =
      [.Pending, .InProgress, .Failed "Network error: Failed to start download",
        .Pending, .InProgress, .Failed "Network error: Failed to start download"] ∧
    dlIsTerminal (.Failed "Network error: Failed to start download") = true ∧
    dlStatusStep (.Failed "Network error: Failed to start download") .Pending = false :=
  ⟨by decide, rfl, rfl⟩

/-- C6 amended: within a single engine operation the entry's recorded statuses
move only along `Pending → InProgress → {Completed, Failed}` and never leave a
terminal state; a later operation on the same subject, however, reinitializes
the entry and can move it out of `Failed` (see the counterexample). -/
theorem status_transitions_within_operation :
    (∀ (w : DlWorld) (fs : FS) (root : FilePath') (url : String) (ep pid : Int),
      List.Chain' (fun a b => dlStatusStep a b = true)
        ((downloadEpisode w fs root url ep pid).trace.map (·.status))) ∧
    (∀ (w : UsbWorld) (fs : FS) (sourcePath devicePath : FilePath') (filename : String),
      List.Chain' (fun a b => usbStatusStep a b = true)
        ((transferFile w fs sourcePath devicePath filename).trace.map (·.status))) :=
  ⟨fun w fs root url ep pid => (downloadEpisode_spec w fs root url ep pid).2.2.1,
   fun w fs sp dp fn => (transferFile_spec w fs sp dp fn).2.2.1⟩

/-- C2 counterexample: when the writability pre-flight (`check_disk_space`)
fails, `download_episode` returns the error while the progress entry is still
`Pending` — no `Failed(reason)` is recorded before the error is returned. -/
theorem download_preflight_failure_leaves_pending :
    (downloadEpisode exampleDlWorldUnwritable [] ["root"] "u" 1 2).result =
      .error (.IoError "Insufficient disk space or permissions") ∧
    (downloadEpisode exampleDlWorldUnwritable [] ["root"] "u" 1 2).trace.map
        (·.status) = [.Pending] :=
  ⟨by decide, by decide⟩

/-- C2 amended: a failing engine operation records `Failed(reason)` in its
progress entry before returning the error, except on the unguarded `?` paths:
the download's podcast-directory creation (which fails before the `Pending`
insert, leaving no entry at all) and writability probe (which leaves the entry
`Pending`), and the transfer's source-metadata read and device-directory
creation (which leave the entry `Pending`). -/
theorem failed_operations_mark_failed_amended :
    (∀ (w : DlWorld) (fs : FS) (root : FilePath') (url : String) (ep pid : Int)
        (err : PodPicoError),
      (downloadEpisode w fs root url ep pid).result = .error err →
      ((downloadEpisode w fs root url ep pid).trace.getLast?.map
          (fun p => statusIsFailedD p.status) = some true) ∨
      (w.dirWritable = false ∧
        (downloadEpisode w fs root url ep pid).trace.map (·.status) = [.Pending]) ∨
      (w.podcastDirCreateOk = false ∧
        (downloadEpisode w fs root url ep pid).trace = [])) ∧
    (∀ (w : UsbWorld) (fs : FS) (sourcePath devicePath : FilePath') (filename : String)
        (err : PodPicoError),
      (transferFile w fs sourcePath devicePath filename).result = .error err →
      ((transferFile w fs sourcePath devicePath filename).trace.getLast?.map
          (fun p => statusIsFailedT p.status) = some true) ∨
      ((w.metadataOk = false ∨ w.dirCreateOk = false) ∧
        (transferFile w fs sourcePath devicePath filename).trace.map (·.status) =
          [.Pending])) :=
  ⟨fun w fs root url ep pid err =>
    (downloadEpisode_spec w fs root url ep pid).2.2.2.1 err,
   fun w fs sp dp fn err => (transferFile_spec w fs sp dp fn).2.2.2 err⟩

theorem failed_operations_mark_failed_amended_witness :
    (downloadEpisode exampleDlWorldNoNetwork [] ["root"] "u" 1 2).result =
      .error (.NetworkError "Failed to start download") ∧
    (((downloadEpisode exampleDlWorldNoNetwork [] ["root"] "u" 1 2).trace.getLast?.map
        (fun p => statusIsFailedD p.status) = some true) ∨
      (exampleDlWorldNoNetwork.dirWritable = false ∧
        (downloadEpisode exampleDlWorldNoNetwork [] ["root"] "u" 1 2).trace.map
          (·.status) = [.Pending]) ∨
      (exampleDlWorldNoNetwork.podcastDirCreateOk = false ∧
        (downloadEpisode exampleDlWorldNoNetwork [] ["root"] "u" 1 2).trace = [])) :=
  ⟨by decide,
   failed_operations_mark_failed_amended.1 exampleDlWorldNoNetwork [] ["root"] "u" 1 2
     (.NetworkError "Failed to start download") (by decide)⟩

/-- C8: every progress entry a download records with status `Completed` — both
on the already-exists short-circuit and on normal completion — has
`total_bytes = 0` and `downloaded_bytes = 0` while `percentage = 100`: the byte
counts accumulated during streaming are discarded from the final entry. -/
theorem download_completed_entries_reset_bytes (w : DlWorld) (fs : FS)
    (root : FilePath') (url : String) (ep pid : Int) (p : DownloadProgress)
    (hp : p ∈ (downloadEpisode w fs root url ep pid).trace)
    (hs : p.status = .Completed) :
    p.total_bytes = 0 ∧ p.downloaded_bytes = 0 ∧ p.percentage = 100 :=
  (downloadEpisode_spec w fs root url ep pid).2.2.2.2 p hp hs

theorem download_completed_entries_reset_bytes_witness :
    (⟨1, 0, 0, 100, 0, none, .Completed⟩ : DownloadProgress) ∈
      (downloadEpisode exampleDlWorldIdle exampleFsExisting ["root"]
        "http://x/e.mp3" 1 2).trace ∧
    (⟨1, 0, 0, 100, 0, none, .Completed⟩ : DownloadProgress).status = .Completed ∧
    ((⟨1, 0, 0, 100, 0, none, .Completed⟩ : DownloadProgress).total_bytes = 0 ∧
      (⟨1, 0, 0, 100, 0, none, .Completed⟩ : DownloadProgress).downloaded_bytes = 0 ∧
      (⟨1, 0, 0, 100, 0, none, .Completed⟩ : DownloadProgress).percentage = 100) :=
  ⟨by decide, rfl,
   download_completed_entries_reset_bytes exampleDlWorldIdle exampleFsExisting
     ["root"] "http://x/e.mp3" 1 2 _ (by decide) rfl⟩

end PodPico
